import Mathlib

/-!
Verification of the plot I/O core of the signum-miner repository.

The definitions below are a shallow embedding of `src/plot.rs` and of the
per-drive read loop of `src/reader.rs`.  Machine integers (`u64`, 64-bit
`usize`) are modelled as `Nat` with an explicit `% U64` wherever the Rust
code performs wrapping arithmetic.  File-system and channel effects are
modelled by explicit state passing; the outcome of fallible operations
(prepare errors, channel sends) is passed in as data where a claim depends
on it.
-/

namespace SignumMiner

/-- Wrap modulus of 64-bit machine arithmetic (`u64` / 64-bit `usize`). -/
def U64 : Nat := 2 ^ 64

/-- Constant `SCOOPS_IN_NONCE` from plot.rs line 21. -/
def SCOOPS_IN_NONCE : Nat := 4096

/-- Constant `SHABAL256_HASH_SIZE` from plot.rs line 22. -/
def SHABAL256_HASH_SIZE : Nat := 32

/-- Constant `SCOOP_SIZE = SHABAL256_HASH_SIZE * 2 = 64` from plot.rs line 23. -/
def SCOOP_SIZE : Nat := SHABAL256_HASH_SIZE * 2

/-- Constant `NONCE_SIZE = SCOOP_SIZE * SCOOPS_IN_NONCE = 262144` from plot.rs line 24. -/
def NONCE_SIZE : Nat := SCOOP_SIZE * SCOOPS_IN_NONCE

/-- Struct `Meta` from plot.rs lines 27-32. -/
structure Meta where
  account_id : Nat
  start_nonce : Nat
  nonces : Nat
  name : List Char
deriving DecidableEq

/-- Struct `Plot` from plot.rs lines 54-64.  The open file handle `fh` carries
no state our claims observe (seek positions are recomputed from
`seek_base + align_offset + read_offset` on every read), so it is omitted. -/
structure Plot where
  meta : Meta
  read_offset : Nat
  align_offset : Nat
  seek_base : Nat
  use_direct_io : Bool
  sector_size : Nat
  dummy : Bool
deriving DecidableEq

/-- Rust `u64::from_str` on the bytes of one filename field (plot.rs lines
123-125): after an optional leading `+`, a nonempty run of decimal digits
whose value fits `u64`; anything else is a parse error. -/
def digitVal (c : Char) : Option Nat :=
  if '0' ≤ c ∧ c ≤ '9' then some (c.toNat - ('0').toNat) else none

/-- Accumulates decimal digits left to right; `none` on a non-digit. -/
def parseDigitsAux : List Char → Nat → Option Nat
  | [], acc => some acc
  | c :: cs, acc =>
    match digitVal c with
    | some d => parseDigitsAux cs (acc * 10 + d)
    | none => none

/-- Full `u64` parse of one field; overflow (final value `≥ 2^64`) errors,
as Rust's checked accumulation does. -/
def parseU64 (s : List Char) : Option Nat :=
  let t := match s with
    | '+' :: rest => rest
    | other => other
  match t with
  | [] => none
  | _ =>
    match parseDigitsAux t 0 with
    | some v => if v < U64 then some v else none
    | none => none

/-- Rust `str::split('_')` (plot.rs line 118): splits at every underscore,
keeping empty fields, and yields `[""]` for the empty string. -/
def splitOn (sep : Char) : List Char → List (List Char)
  | [] => [[]]
  | c :: cs =>
    match splitOn sep cs with
    | [] => [[c]]
    | h :: t => if c = sep then [] :: h :: t else (c :: h) :: t

/-- Filename validation of `Plot::new` (plot.rs lines 118-125): exactly three
underscore-delimited fields, each parsed as `u64`, in order
`account_id`, `start_nonce`, `nonces`. -/
def parse3 : List (List Char) → Option (Nat × Nat × Nat)
  | [f0, f1, f2] =>
    match parseU64 f0, parseU64 f1, parseU64 f2 with
    | some a, some s, some n => some (a, s, n)
    | _, _, _ => none
  | _ => none

/-- What `Plot::new` observes of a path: whether it is a regular file, the
final path component (the plot file name), and the `fs::metadata` length. -/
structure PathInfo where
  isFile : Bool
  fileName : List Char
  size : Nat
deriving DecidableEq

/-- `Plot::new` from plot.rs lines 109-175.  The expected size
`nonces * NONCE_SIZE` is a `u64` product and therefore wraps modulo `2^64`
(line 128).  Opening the file handle is assumed to succeed; `sector_size` is
the value `get_sector_size` returns for the path.  The direct-I/O downgrade
of lines 150-156 applies when `sector_size / 64 > nonces`. -/
def plotNew (path : PathInfo) (use_direct_io dummy : Bool) (sector_size : Nat) : Option Plot :=
  if path.isFile = false then none
  else
    match parse3 (splitOn '_' path.fileName) with
    | none => none
    | some (account_id, start_nonce, nonces) =>
      if path.size ≠ (nonces * NONCE_SIZE) % U64 then none
      else
        some {
          meta := { account_id := account_id, start_nonce := start_nonce,
                    nonces := nonces, name := path.fileName },
          read_offset := 0,
          align_offset := 0,
          seek_base := 0,
          use_direct_io :=
            if use_direct_io = true ∧ nonces < sector_size / 64 then false else use_direct_io,
          sector_size := sector_size,
          dummy := dummy }

/-- `Plot::round_seek_addr` from plot.rs lines 335-348: aligns `seek_addr`
downward to a multiple of `sector_size` and returns (new address, amount
subtracted). -/
def roundSeekAddr (sector_size seek_addr : Nat) : Nat × Nat :=
  let r := seek_addr % sector_size
  if r ≠ 0 then (seek_addr - r, r) else (seek_addr, r)

/-- `Plot::prepare` from plot.rs lines 178-197: resets `read_offset` and
`align_offset`, computes the scoop region address `scoop * nonces * SCOOP_SIZE`
in wrapping `u64` arithmetic, aligns it downward under direct I/O, stores
`seek_base`, and returns the address passed to `fh.seek` (which `seek` also
returns).  Reopening the file handle is assumed to succeed. -/
def Plot.prepare (p : Plot) (scoop : Nat) : Plot × Nat :=
  let seek_addr := (scoop * p.meta.nonces * SCOOP_SIZE) % U64
  if p.use_direct_io then
    let rsa := roundSeekAddr p.sector_size seek_addr
    ({ p with read_offset := 0, align_offset := rsa.2, seek_base := rsa.1 }, rsa.1)
  else
    ({ p with read_offset := 0, align_offset := 0, seek_base := seek_addr }, seek_addr)

/-- Result triple of `Plot::read` (plot.rs line 223): `(bytes_read,
start_nonce, finished)`. -/
structure ReadResult where
  bytes_read : Nat
  start_nonce : Nat
  finished : Bool
deriving DecidableEq

/-- `Plot::read` from plot.rs lines 222-262, for a buffer of capacity
`buffer_cap`.  All arithmetic on `u64`/`usize` values wraps modulo `2^64`:
the region size `SCOOP_SIZE * nonces`, the comparison sum
`read_offset + buffer_cap`, the remaining-bytes subtraction, and the
`read_offset` advance.  Under direct I/O a final partial read is truncated
down to a multiple of `sector_size`.  The actual I/O (seek + read_exact) is
skipped when `dummy`, which changes no field the model tracks. -/
def Plot.read (p : Plot) (buffer_cap scoop : Nat) : Plot × ReadResult :=
  let region := (SCOOP_SIZE * p.meta.nonces) % U64
  let start_nonce := (p.meta.start_nonce + scoop * p.meta.nonces + p.read_offset / 64) % U64
  let btf : Nat × Bool :=
    if region ≤ (p.read_offset + buffer_cap) % U64 then
      let b0 := (region + U64 - p.read_offset) % U64
      let b1 :=
        if p.use_direct_io then
          (if b0 % p.sector_size ≠ 0 then b0 - b0 % p.sector_size else b0)
        else b0
      (b1, true)
    else (buffer_cap, false)
  ({ p with read_offset := (p.read_offset + btf.1) % U64 },
   { bytes_read := btf.1, start_nonce := start_nonce, finished := btf.2 })

/-- One plot's inner loop of `Reader::create_read_task` (reader.rs lines
235-386) without interrupts or errors: each buffer received from the pool
(its capacity the next element of `caps`) produces one `Plot::read` and one
reply; the loop breaks after the first reply with `finished = true`
(`next_plot` in reader.rs). -/
def runReads (p : Plot) (scoop : Nat) : List Nat → Plot × List ReadResult
  | [] => (p, [])
  | c :: cs =>
    let step := p.read c scoop
    if step.2.finished then (step.1, [step.2])
    else
      let rest := runReads step.1 scoop cs
      (rest.1, step.2 :: rest.2)

/-- Replies a plot contributes to one round: `prepare(scoop)` followed by the
buffer loop, as the drive task does per plot (reader.rs lines 227 and 235). -/
def roundReplies (p : Plot) (scoop : Nat) (caps : List Nat) : List ReadResult :=
  (runReads (p.prepare scoop).1 scoop caps).2

/-- Total bytes carried by a list of replies. -/
def sumBytes (rs : List ReadResult) : Nat :=
  (rs.map fun r => r.bytes_read).sum

/-- Whether the final reply of a round reports `finished = true` (the round
ran to completion for this plot). -/
def lastFinished : List ReadResult → Bool
  | [] => false
  | [r] => r.finished
  | _ :: r :: rest => lastFinished (r :: rest)

/-! ### The drive task's `finished` flags (reader.rs lines 219-387)

One drive task visits its plots in order.  For claim C5 only the sequence of
`finished` flags matters, so a plot's behaviour in a round is abstracted to
`Option Nat`: `none` when `prepare` fails (the task logs and `continue`s to
the next plot, emitting nothing, reader.rs lines 227-233), and `some k` when
`prepare` succeeds and the inner loop emits `k` replies with
`next_plot = false` followed by one final reply with `next_plot = true` — a
read error also ends a plot this way, since the error arm substitutes
`(0, 0, true)` and the reply is still sent (reader.rs lines 247-257). -/

/-- Flags of the replies one plot contributes; `isLast` is the value of
`i_p == plot_count - 1`, and a reply's `finished` flag is
`i_p == plot_count - 1 && next_plot` (reader.rs line 267). -/
def plotFlags (isLast : Bool) : Option Nat → List Bool
  | none => []
  | some k => List.replicate k false ++ [isLast]

/-- The loop of reader.rs line 219 with its running plot index `i`, compared
against `plot_count - 1`. -/
def driveFlagsFrom (plot_count : Nat) : Nat → List (Option Nat) → List Bool
  | _, [] => []
  | i, o :: rest =>
    plotFlags (decide (i = plot_count - 1)) o ++ driveFlagsFrom plot_count (i + 1) rest

/-- The `finished` flags of every reply one drive task emits in one round
that runs to completion without interrupt. -/
def driveFlags (outcomes : List (Option Nat)) : List Bool :=
  driveFlagsFrom outcomes.length 0 outcomes

/-! ### Fate of one buffer in the drive task's inner loop (reader.rs 235-386) -/

/-- Where the buffer taken from `empty_buffers` ends up. -/
inductive BufferFate
  | sentReply
  | returnedToPool
  | dropped
deriving DecidableEq

/-- How the inner loop continues after the iteration. -/
inductive TaskStep
  | continueInner
  | advancePlot
  | exitTask
deriving DecidableEq

/-- One iteration of the buffer loop of `Reader::create_read_task`
(reader.rs lines 235-386), for the CPU consumer path.  `readRes` is
`Plot::read`'s result, `none` when it returned `Err` (the arm of lines
249-256 unmaps the buffer and substitutes `(0, 0, true)`); `interrupted`
is whether `rx_interupt.try_recv()` succeeds at line 259; `cpuSendOk` and
`emptySendOk` are whether the sends on `tx_read_replies_cpu` (line 311) and
`tx_empty_buffers` (line 261) succeed.  A failed `crossbeam` send drops the
value it carried, so the buffer inside it is dropped. -/
def readerIteration (readRes : Option (Nat × Nat × Bool))
    (interrupted cpuSendOk emptySendOk : Bool) :
    BufferFate × TaskStep :=
  let next_plot :=
    match readRes with
    | some r => r.2.2
    | none => true
  if interrupted then
    (if emptySendOk then BufferFate.returnedToPool else BufferFate.dropped,
     TaskStep.exitTask)
  else if cpuSendOk then
    (BufferFate.sentReply,
     if next_plot then TaskStep.advancePlot else TaskStep.continueInner)
  else
    (BufferFate.dropped, TaskStep.exitTask)

/-! ### Concrete plots used as witnesses and counterexamples -/

/-- The 63-nonce direct-I/O plot of the spec's scenario S3: sector size 512,
so scoop 1 seeks to `63 * 64 = 4032`, aligned down to `3584`. -/
def pS3 : Plot :=
  { meta := { account_id := 7, start_nonce := 0, nonces := 63, name := ("7_0_63").data },
    read_offset := 0, align_offset := 0, seek_base := 0,
    use_direct_io := true, sector_size := 512, dummy := false }

/-- A 4-nonce buffered plot (scoop region 256 bytes). -/
def p4 : Plot :=
  { meta := { account_id := 9, start_nonce := 0, nonces := 4, name := ("9_0_4").data },
    read_offset := 0, align_offset := 0, seek_base := 0,
    use_direct_io := false, sector_size := 4096, dummy := true }

/-- Path of the spec's scenario S1 plot `123_0_10`, 2,621,440 bytes. -/
def path9 : PathInfo := { isFile := true, fileName := ("123_0_10").data, size := 2621440 }

/-- The plot `Plot::new` builds from `path9` with buffered I/O. -/
def P9 : Plot :=
  { meta := { account_id := 123, start_nonce := 0, nonces := 10, name := ("123_0_10").data },
    read_offset := 0, align_offset := 0, seek_base := 0,
    use_direct_io := false, sector_size := 4096, dummy := false }

/-- Path of the spec's scenario S2 plot `7_0_3`, 786,432 bytes. -/
def pathS2 : PathInfo := { isFile := true, fileName := ("7_0_3").data, size := 786432 }

/-- The plot `Plot::new` builds from `pathS2` when direct I/O is requested
with sector size 4096: too few nonces, so `use_direct_io` is downgraded. -/
def pS2 : Plot :=
  { meta := { account_id := 7, start_nonce := 0, nonces := 3, name := ("7_0_3").data },
    read_offset := 0, align_offset := 0, seek_base := 0,
    use_direct_io := false, sector_size := 4096, dummy := false }

/-! ### Arithmetic helpers for dropping `% 2^64` where no wrap occurs -/

lemma wrap_of_lt {a : Nat} (h : a < U64) : a % U64 = a := Nat.mod_eq_of_lt h

lemma wrap_sub {a r : Nat} (hra : r ≤ a) (ha : a < U64) :
    (a + U64 - r) % U64 = a - r := by
  have h1 : a + U64 - r = a - r + U64 := by omega
  rw [h1, Nat.add_mod_right]
  exact Nat.mod_eq_of_lt (by omega)

/-! ### Per-call facts about `Plot.read` -/

lemma read_meta (p : Plot) (cap scoop : Nat) : ((p.read cap scoop).1).meta = p.meta := rfl

lemma read_udio (p : Plot) (cap scoop : Nat) :
    ((p.read cap scoop).1).use_direct_io = p.use_direct_io := rfl

lemma read_sector (p : Plot) (cap scoop : Nat) :
    ((p.read cap scoop).1).sector_size = p.sector_size := rfl

/-- The returned `start_nonce` is `meta.start_nonce + scoop * nonces +
read_offset / 64`, wrapping: plot.rs lines 226-228. -/
lemma read_sn (p : Plot) (cap scoop : Nat) :
    ((p.read cap scoop).2).start_nonce
      = (p.meta.start_nonce + scoop * p.meta.nonces + p.read_offset / 64) % U64 := rfl

/-- `finished` is returned exactly when `read_offset + capacity` reaches the
region size (plot.rs lines 230-244), stated without wrap under the
no-overflow hypotheses. -/
lemma read_finished_iff (p : Plot) (cap scoop : Nat)
    (hreg : SCOOP_SIZE * p.meta.nonces < U64)
    (hsum : p.read_offset + cap < U64) :
    (p.read cap scoop).2.finished = true
      ↔ SCOOP_SIZE * p.meta.nonces ≤ p.read_offset + cap := by
  simp only [Plot.read, wrap_of_lt hreg, wrap_of_lt hsum]
  split <;> simp_all

/-- A non-final read takes the whole buffer capacity and advances
`read_offset` by it. -/
lemma read_cont_bytes (p : Plot) (cap scoop : Nat)
    (hfin : (p.read cap scoop).2.finished = false) :
    (p.read cap scoop).2.bytes_read = cap ∧
    (p.read cap scoop).1.read_offset = (p.read_offset + cap) % U64 := by
  revert hfin
  simp only [Plot.read]
  split <;> simp_all

/-- A final read takes the remaining bytes of the region, minus a tail that
is zero in buffered mode and `remaining % sector_size` under direct I/O. -/
lemma read_fin_parts (p : Plot) (cap scoop : Nat)
    (hreg : SCOOP_SIZE * p.meta.nonces < U64)
    (hro : p.read_offset ≤ SCOOP_SIZE * p.meta.nonces)
    (hsum : p.read_offset + cap < U64)
    (hfin : (p.read cap scoop).2.finished = true) :
    ∃ t, (p.read cap scoop).2.bytes_read + t = SCOOP_SIZE * p.meta.nonces - p.read_offset ∧
      (p.use_direct_io = false → t = 0) ∧
      (p.use_direct_io = true → 0 < p.sector_size → t < p.sector_size) ∧
      (p.read cap scoop).1.read_offset
        = p.read_offset + (p.read cap scoop).2.bytes_read := by
  have hge : SCOOP_SIZE * p.meta.nonces ≤ p.read_offset + cap :=
    (read_finished_iff p cap scoop hreg hsum).1 hfin
  have hb0 : (SCOOP_SIZE * p.meta.nonces + U64 - p.read_offset) % U64
      = SCOOP_SIZE * p.meta.nonces - p.read_offset := wrap_sub hro hreg
  simp only [Plot.read, wrap_of_lt hreg, wrap_of_lt hsum, if_pos hge, hb0]
  cases hud : p.use_direct_io with
  | false =>
    rw [if_neg Bool.false_ne_true]
    refine ⟨0, by omega, fun _ => rfl, fun h => absurd h (by simp), ?_⟩
    exact wrap_of_lt (by omega)
  | true =>
    rw [if_pos rfl]
    by_cases hz : (SCOOP_SIZE * p.meta.nonces - p.read_offset) % p.sector_size = 0
    · rw [if_neg (not_not_intro hz)]
      refine ⟨0, by omega, fun _ => rfl, fun _ hs => hs, ?_⟩
      exact wrap_of_lt (by omega)
    · rw [if_pos hz]
      have hle : (SCOOP_SIZE * p.meta.nonces - p.read_offset) % p.sector_size
          ≤ SCOOP_SIZE * p.meta.nonces - p.read_offset := Nat.mod_le _ _
      refine ⟨(SCOOP_SIZE * p.meta.nonces - p.read_offset) % p.sector_size,
        by omega, fun h => absurd h (by simp), fun _ hs => Nat.mod_lt _ hs, ?_⟩
      exact wrap_of_lt (by omega)

/-- Unfolding of the reply loop on a cons cell. -/
lemma runReads_cons (p : Plot) (scoop c : Nat) (cs : List Nat) :
    runReads p scoop (c :: cs)
      = if (p.read c scoop).2.finished then ((p.read c scoop).1, [(p.read c scoop).2])
        else ((runReads (p.read c scoop).1 scoop cs).1,
              (p.read c scoop).2 :: (runReads (p.read c scoop).1 scoop cs).2) := rfl

@[simp] lemma sumBytes_nil : sumBytes [] = 0 := rfl

@[simp] lemma sumBytes_cons (r : ReadResult) (rs : List ReadResult) :
    sumBytes (r :: rs) = r.bytes_read + sumBytes rs := by
  simp [sumBytes]

lemma sumBytes_append (a b : List ReadResult) :
    sumBytes (a ++ b) = sumBytes a + sumBytes b := by
  simp [sumBytes]

lemma sumBytes_take_le (rs : List ReadResult) (i : Nat) :
    sumBytes (rs.take i) ≤ sumBytes rs := by
  conv_rhs => rw [← List.take_append_drop i rs]
  rw [sumBytes_append]
  omega

lemma sumBytes_take_succ (rs : List ReadResult) (i : Nat) (h : i < rs.length) :
    sumBytes (rs.take (i + 1)) = sumBytes (rs.take i) + (rs.get ⟨i, h⟩).bytes_read := by
  rw [List.take_succ, sumBytes_append, List.getElem?_eq_getElem h]
  simp [sumBytes, List.get_eq_getElem]

@[simp] lemma lastFinished_nil : lastFinished [] = false := rfl

@[simp] lemma lastFinished_singleton (r : ReadResult) : lastFinished [r] = r.finished := rfl

@[simp] lemma lastFinished_cons_cons (a b : ReadResult) (rest : List ReadResult) :
    lastFinished (a :: b :: rest) = lastFinished (b :: rest) := rfl

/-! ### Invariants of the reply loop -/

lemma runReads_cons_fst (p : Plot) (scoop c : Nat) (cs : List Nat) :
    (runReads p scoop (c :: cs)).1
      = if (p.read c scoop).2.finished then (p.read c scoop).1
        else (runReads (p.read c scoop).1 scoop cs).1 := by
  show (if (p.read c scoop).2.finished then _ else _ : Plot × List ReadResult).1 = _
  split <;> rfl

lemma runReads_cons_snd (p : Plot) (scoop c : Nat) (cs : List Nat) :
    (runReads p scoop (c :: cs)).2
      = if (p.read c scoop).2.finished then [(p.read c scoop).2]
        else (p.read c scoop).2 :: (runReads (p.read c scoop).1 scoop cs).2 := by
  show (if (p.read c scoop).2.finished then _ else _ : Plot × List ReadResult).2 = _
  split <;> rfl

/-- The loop leaves the metadata untouched and advances `read_offset` by
exactly the bytes it hands out, never past the scoop region. -/
lemma runReads_off (scoop : Nat) : ∀ (caps : List Nat) (p : Plot),
    SCOOP_SIZE * p.meta.nonces < U64 →
    p.read_offset ≤ SCOOP_SIZE * p.meta.nonces →
    (∀ c ∈ caps, SCOOP_SIZE * p.meta.nonces + c < U64) →
    (runReads p scoop caps).1.meta = p.meta ∧
    (runReads p scoop caps).1.read_offset
      = p.read_offset + sumBytes (runReads p scoop caps).2 ∧
    p.read_offset + sumBytes (runReads p scoop caps).2 ≤ SCOOP_SIZE * p.meta.nonces := by
  intro caps
  induction caps with
  | nil => intro p h1 h2 _; simpa [runReads] using h2
  | cons c cs ih =>
    intro p h1 h2 h3
    have hc : SCOOP_SIZE * p.meta.nonces + c < U64 := h3 c (List.mem_cons_self c cs)
    have hsum : p.read_offset + c < U64 := by omega
    rw [runReads_cons_fst, runReads_cons_snd]
    by_cases hfin : (p.read c scoop).2.finished = true
    · rw [if_pos hfin, if_pos hfin]
      obtain ⟨t, hbt, _, _, hoff⟩ := read_fin_parts p c scoop h1 h2 hsum hfin
      refine ⟨read_meta p c scoop, ?_, ?_⟩
      · simpa using hoff
      · simp only [sumBytes_cons, sumBytes_nil]
        omega
    · rw [if_neg hfin, if_neg hfin]
      simp only [Bool.not_eq_true] at hfin
      obtain ⟨hbytes, hoff⟩ := read_cont_bytes p c scoop hfin
      have hlt : p.read_offset + c < SCOOP_SIZE * p.meta.nonces := by
        by_contra hge
        rw [(read_finished_iff p c scoop h1 hsum).2 (by omega)] at hfin
        cases hfin
      have hoff' : (p.read c scoop).1.read_offset = p.read_offset + c := by
        rw [hoff, wrap_of_lt hsum]
      have hm := read_meta p c scoop
      obtain ⟨im, ioff, ile⟩ := ih (p.read c scoop).1
        (by rw [hm]; exact h1) (by rw [hm, hoff']; omega)
        (by intro x hx; rw [hm]; exact h3 x (List.mem_cons_of_mem c hx))
      rw [hm] at im
      rw [hoff'] at ioff ile
      rw [hm] at ile
      refine ⟨im, ?_, ?_⟩
      · simp only [sumBytes_cons, hbytes]
        omega
      · simp only [sumBytes_cons, hbytes]
        omega

/-- At most one reply per supplied buffer. -/
lemma runReads_len (scoop : Nat) : ∀ (caps : List Nat) (p : Plot),
    (runReads p scoop caps).2.length ≤ caps.length := by
  intro caps
  induction caps with
  | nil => intro p; simp [runReads]
  | cons c cs ih =>
    intro p
    rw [runReads_cons_snd]
    by_cases hfin : (p.read c scoop).2.finished = true
    · rw [if_pos hfin]; simp
    · rw [if_neg hfin]
      simpa using ih (p.read c scoop).1

/-- Formula for every emitted `start_nonce`: the plot's `start_nonce`, plus
the flat-file term `scoop * nonces`, plus the bytes already read before the
call divided by 64 — wrapped modulo `2^64` as the `u64` sum is. -/
lemma runReads_sn (scoop : Nat) : ∀ (caps : List Nat) (p : Plot),
    SCOOP_SIZE * p.meta.nonces < U64 →
    p.read_offset ≤ SCOOP_SIZE * p.meta.nonces →
    (∀ c ∈ caps, SCOOP_SIZE * p.meta.nonces + c < U64) →
    ∀ i r, ((runReads p scoop caps).2)[i]? = some r →
      r.start_nonce
        = (p.meta.start_nonce + scoop * p.meta.nonces
            + (p.read_offset + sumBytes ((runReads p scoop caps).2.take i)) / 64) % U64 := by
  intro caps
  induction caps with
  | nil => intro p _ _ _ i r hr; simp [runReads] at hr
  | cons c cs ih =>
    intro p h1 h2 h3 i r hr
    have hc : SCOOP_SIZE * p.meta.nonces + c < U64 := h3 c (List.mem_cons_self c cs)
    have hsum : p.read_offset + c < U64 := by omega
    rw [runReads_cons_snd] at hr ⊢
    by_cases hfin : (p.read c scoop).2.finished = true
    · rw [if_pos hfin] at hr ⊢
      match i with
      | 0 =>
        rw [List.getElem?_cons_zero] at hr
        injection hr with hr
        rw [← hr]
        simpa using read_sn p c scoop
      | i + 1 =>
        rw [List.getElem?_cons_succ] at hr
        simp at hr
    · rw [if_neg hfin] at hr ⊢
      simp only [Bool.not_eq_true] at hfin
      obtain ⟨hbytes, hoff⟩ := read_cont_bytes p c scoop hfin
      have hlt : p.read_offset + c < SCOOP_SIZE * p.meta.nonces := by
        by_contra hge
        rw [(read_finished_iff p c scoop h1 hsum).2 (by omega)] at hfin
        cases hfin
      have hoff' : (p.read c scoop).1.read_offset = p.read_offset + c := by
        rw [hoff, wrap_of_lt hsum]
      have hm := read_meta p c scoop
      match i with
      | 0 =>
        rw [List.getElem?_cons_zero] at hr
        injection hr with hr
        rw [← hr]
        simpa using read_sn p c scoop
      | i + 1 =>
        rw [List.getElem?_cons_succ] at hr
        have hih := ih (p.read c scoop).1
          (by rw [hm]; exact h1) (by rw [hm, hoff']; omega)
          (by intro x hx; rw [hm]; exact h3 x (List.mem_cons_of_mem c hx)) i r hr
        rw [hm, hoff'] at hih
        rw [List.take_succ_cons, sumBytes_cons, hbytes, hih]
        congr 2
        omega

/-- Every reply followed by another reports `finished = false` and carries
exactly its buffer's capacity. -/
lemma runReads_notfin (scoop : Nat) : ∀ (caps : List Nat) (p : Plot),
    ∀ i r r', ((runReads p scoop caps).2)[i]? = some r →
      ((runReads p scoop caps).2)[i + 1]? = some r' →
      r.finished = false ∧ ∀ cap, caps[i]? = some cap → r.bytes_read = cap := by
  intro caps
  induction caps with
  | nil => intro p i r r' hr _; simp [runReads] at hr
  | cons c cs ih =>
    intro p i r r' hr hr'
    rw [runReads_cons_snd] at hr hr'
    by_cases hfin : (p.read c scoop).2.finished = true
    · rw [if_pos hfin] at hr hr'
      match i with
      | 0 => rw [List.getElem?_cons_succ] at hr'; simp at hr'
      | i + 1 => rw [List.getElem?_cons_succ] at hr; simp at hr
    · rw [if_neg hfin] at hr hr'
      simp only [Bool.not_eq_true] at hfin
      obtain ⟨hbytes, _⟩ := read_cont_bytes p c scoop hfin
      match i with
      | 0 =>
        rw [List.getElem?_cons_zero] at hr
        injection hr with hr
        refine ⟨by rw [← hr]; exact hfin, ?_⟩
        intro cap hcap
        rw [List.getElem?_cons_zero] at hcap
        injection hcap with hcap
        rw [← hr, ← hcap]
        exact hbytes
      | i + 1 =>
        rw [List.getElem?_cons_succ] at hr hr'
        obtain ⟨hf, hb⟩ := ih (p.read c scoop).1 i r r' hr hr'
        refine ⟨hf, ?_⟩
        intro cap hcap
        rw [List.getElem?_cons_succ] at hcap
        exact hb cap hcap

/-- Each reply's `finished` flag is `true` exactly when its buffer's capacity
covers the bytes then remaining in the region. -/
lemma runReads_fin_iff (scoop : Nat) : ∀ (caps : List Nat) (p : Plot),
    SCOOP_SIZE * p.meta.nonces < U64 →
    p.read_offset ≤ SCOOP_SIZE * p.meta.nonces →
    (∀ c ∈ caps, SCOOP_SIZE * p.meta.nonces + c < U64) →
    ∀ i r cap, ((runReads p scoop caps).2)[i]? = some r → caps[i]? = some cap →
      (r.finished = true ↔
        SCOOP_SIZE * p.meta.nonces
          - (p.read_offset + sumBytes ((runReads p scoop caps).2.take i)) ≤ cap) := by
  intro caps
  induction caps with
  | nil => intro p _ _ _ i r cap hr _; simp [runReads] at hr
  | cons c cs ih =>
    intro p h1 h2 h3 i r cap hr hcap
    have hcm : SCOOP_SIZE * p.meta.nonces + c < U64 := h3 c (List.mem_cons_self c cs)
    have hsum : p.read_offset + c < U64 := by omega
    rw [runReads_cons_snd] at hr ⊢
    by_cases hfin : (p.read c scoop).2.finished = true
    · rw [if_pos hfin] at hr
      have hge : SCOOP_SIZE * p.meta.nonces ≤ p.read_offset + c :=
        (read_finished_iff p c scoop h1 hsum).1 hfin
      match i with
      | 0 =>
        rw [List.getElem?_cons_zero] at hr hcap
        injection hr with hr
        injection hcap with hcap
        rw [← hr, ← hcap]
        simp only [if_pos hfin, List.take_zero, sumBytes_nil, Nat.add_zero]
        exact ⟨fun _ => by omega, fun _ => hfin⟩
      | i + 1 =>
        rw [List.getElem?_cons_succ] at hr
        simp at hr
    · rw [if_neg hfin] at hr
      simp only [Bool.not_eq_true] at hfin
      obtain ⟨hbytes, hoff⟩ := read_cont_bytes p c scoop hfin
      have hlt : p.read_offset + c < SCOOP_SIZE * p.meta.nonces := by
        by_contra hge
        rw [(read_finished_iff p c scoop h1 hsum).2 (by omega)] at hfin
        cases hfin
      have hoff' : (p.read c scoop).1.read_offset = p.read_offset + c := by
        rw [hoff, wrap_of_lt hsum]
      have hm := read_meta p c scoop
      match i with
      | 0 =>
        rw [List.getElem?_cons_zero] at hr hcap
        injection hr with hr
        injection hcap with hcap
        rw [← hr, ← hcap]
        rw [if_neg (by rw [hfin]; exact Bool.false_ne_true), List.take_zero,
          sumBytes_nil, Nat.add_zero]
        constructor
        · intro hx; rw [hfin] at hx; cases hx
        · intro hx; omega
      | i + 1 =>
        rw [List.getElem?_cons_succ] at hr hcap
        have hih := ih (p.read c scoop).1
          (by rw [hm]; exact h1) (by rw [hm, hoff']; omega)
          (by intro x hx; rw [hm]; exact h3 x (List.mem_cons_of_mem c hx)) i r cap hr hcap
        rw [hm, hoff'] at hih
        rw [if_neg (by rw [hfin]; exact Bool.false_ne_true), List.take_succ_cons,
          sumBytes_cons, hbytes]
        rw [show p.read_offset
              + (c + sumBytes ((runReads (p.read c scoop).1 scoop cs).2.take i))
            = p.read_offset + c
              + sumBytes ((runReads (p.read c scoop).1 scoop cs).2.take i) from by omega]
        exact hih

/-- A completed round's total: the region size minus a tail that is zero in
buffered mode and below `sector_size` under direct I/O. -/
lemma runReads_tail (scoop : Nat) : ∀ (caps : List Nat) (p : Plot),
    SCOOP_SIZE * p.meta.nonces < U64 →
    p.read_offset ≤ SCOOP_SIZE * p.meta.nonces →
    (∀ c ∈ caps, SCOOP_SIZE * p.meta.nonces + c < U64) →
    lastFinished (runReads p scoop caps).2 = true →
    ∃ t, p.read_offset + sumBytes (runReads p scoop caps).2 + t
          = SCOOP_SIZE * p.meta.nonces ∧
      (p.use_direct_io = false → t = 0) ∧
      (p.use_direct_io = true → 0 < p.sector_size → t < p.sector_size) := by
  intro caps
  induction caps with
  | nil => intro p _ _ _ hlast; simp [runReads] at hlast
  | cons c cs ih =>
    intro p h1 h2 h3 hlast
    have hcm : SCOOP_SIZE * p.meta.nonces + c < U64 := h3 c (List.mem_cons_self c cs)
    have hsum : p.read_offset + c < U64 := by omega
    rw [runReads_cons_snd] at hlast ⊢
    by_cases hfin : (p.read c scoop).2.finished = true
    · rw [if_pos hfin] at hlast ⊢
      obtain ⟨t, hbt, hf, ht, _⟩ := read_fin_parts p c scoop h1 h2 hsum hfin
      exact ⟨t, by simp only [sumBytes_cons, sumBytes_nil]; omega, hf, ht⟩
    · rw [if_neg hfin] at hlast ⊢
      simp only [Bool.not_eq_true] at hfin
      obtain ⟨hbytes, hoff⟩ := read_cont_bytes p c scoop hfin
      have hlt : p.read_offset + c < SCOOP_SIZE * p.meta.nonces := by
        by_contra hge
        rw [(read_finished_iff p c scoop h1 hsum).2 (by omega)] at hfin
        cases hfin
      have hoff' : (p.read c scoop).1.read_offset = p.read_offset + c := by
        rw [hoff, wrap_of_lt hsum]
      have hm := read_meta p c scoop
      have hlast' : lastFinished (runReads (p.read c scoop).1 scoop cs).2 = true := by
        rcases hrs : (runReads (p.read c scoop).1 scoop cs).2 with _ | ⟨x, xs⟩
        · rw [hrs] at hlast
          simp only [lastFinished_singleton] at hlast
          rw [hfin] at hlast
          cases hlast
        · rw [hrs] at hlast
          rw [lastFinished_cons_cons] at hlast
          exact hlast
      obtain ⟨t, hbt, hf, ht⟩ := ih (p.read c scoop).1
        (by rw [hm]; exact h1) (by rw [hm, hoff']; omega)
        (by intro x hx; rw [hm]; exact h3 x (List.mem_cons_of_mem c hx)) hlast'
      rw [hm, hoff'] at hbt
      rw [read_udio] at hf ht
      rw [read_sector] at ht
      refine ⟨t, ?_, hf, ht⟩
      simp only [sumBytes_cons, hbytes]
      omega

/-! ### Facts about `Plot.prepare` -/

lemma prepare_meta (p : Plot) (scoop : Nat) : (p.prepare scoop).1.meta = p.meta := by
  simp only [Plot.prepare]
  split <;> rfl

lemma prepare_off (p : Plot) (scoop : Nat) : (p.prepare scoop).1.read_offset = 0 := by
  simp only [Plot.prepare]
  split <;> rfl

lemma prepare_udio (p : Plot) (scoop : Nat) :
    (p.prepare scoop).1.use_direct_io = p.use_direct_io := by
  simp only [Plot.prepare]
  split <;> rfl

lemma prepare_sector (p : Plot) (scoop : Nat) :
    (p.prepare scoop).1.sector_size = p.sector_size := by
  simp only [Plot.prepare]
  split <;> rfl

/-- Buffered mode: no alignment, `seek_base` is the raw region address. -/
lemma prepare_buffered (p : Plot) (scoop : Nat) (h : p.use_direct_io = false) :
    (p.prepare scoop).1.align_offset = 0 ∧
    (p.prepare scoop).1.seek_base = (scoop * p.meta.nonces * SCOOP_SIZE) % U64 ∧
    (p.prepare scoop).2 = (scoop * p.meta.nonces * SCOOP_SIZE) % U64 := by
  simp only [Plot.prepare]
  rw [if_neg (by rw [h]; exact Bool.false_ne_true)]
  exact ⟨rfl, rfl, rfl⟩

/-- Direct mode: `align_offset` is the address modulo `sector_size` and
`seek_base` the address aligned down by that amount. -/
lemma prepare_direct (p : Plot) (scoop : Nat) (h : p.use_direct_io = true) :
    (p.prepare scoop).1.align_offset
      = ((scoop * p.meta.nonces * SCOOP_SIZE) % U64) % p.sector_size ∧
    (p.prepare scoop).1.seek_base
      = (scoop * p.meta.nonces * SCOOP_SIZE) % U64
        - ((scoop * p.meta.nonces * SCOOP_SIZE) % U64) % p.sector_size ∧
    (p.prepare scoop).2 = (p.prepare scoop).1.seek_base := by
  simp only [Plot.prepare, roundSeekAddr]
  rw [if_pos h]
  by_cases hz : (scoop * p.meta.nonces * SCOOP_SIZE) % U64 % p.sector_size = 0
  · rw [if_neg (not_not_intro hz)]
    refine ⟨rfl, ?_, rfl⟩
    rw [hz]
    exact (Nat.sub_zero _).symm
  · rw [if_pos hz]
    exact ⟨rfl, rfl, rfl⟩

/-! ### The reply loop after `prepare` -/

lemma roundReplies_le (p : Plot) (scoop : Nat) (caps : List Nat)
    (hreg : SCOOP_SIZE * p.meta.nonces < U64)
    (hcaps : ∀ c ∈ caps, SCOOP_SIZE * p.meta.nonces + c < U64) :
    sumBytes (roundReplies p scoop caps) ≤ SCOOP_SIZE * p.meta.nonces := by
  have hm := prepare_meta p scoop
  have h0 := prepare_off p scoop
  obtain ⟨_, _, hle⟩ := runReads_off scoop caps (p.prepare scoop).1
    (by rw [hm]; exact hreg) (by rw [h0]; omega)
    (by intro c hc; rw [hm]; exact hcaps c hc)
  rw [hm, h0] at hle
  simpa using hle

lemma roundReplies_len (p : Plot) (scoop : Nat) (caps : List Nat) :
    (roundReplies p scoop caps).length ≤ caps.length :=
  runReads_len scoop caps (p.prepare scoop).1

/-- Wrapped `start_nonce` formula for the replies of a full per-plot round. -/
lemma roundReplies_sn (p : Plot) (scoop : Nat) (caps : List Nat)
    (hreg : SCOOP_SIZE * p.meta.nonces < U64)
    (hcaps : ∀ c ∈ caps, SCOOP_SIZE * p.meta.nonces + c < U64) :
    ∀ i r, (roundReplies p scoop caps)[i]? = some r →
      r.start_nonce
        = (p.meta.start_nonce + scoop * p.meta.nonces
            + sumBytes ((roundReplies p scoop caps).take i) / 64) % U64 := by
  intro i r hr
  have hm := prepare_meta p scoop
  have h0 := prepare_off p scoop
  have h := runReads_sn scoop caps (p.prepare scoop).1
    (by rw [hm]; exact hreg) (by rw [h0]; omega)
    (by intro c hc; rw [hm]; exact hcaps c hc) i r hr
  rw [hm, h0] at h
  simpa using h

/-- Unwrapped `start_nonce` formula, under the no-overflow hypothesis on the
final nonce index. -/
lemma roundReplies_sn_nowrap (p : Plot) (scoop : Nat) (caps : List Nat)
    (hreg : SCOOP_SIZE * p.meta.nonces < U64)
    (hcaps : ∀ c ∈ caps, SCOOP_SIZE * p.meta.nonces + c < U64)
    (hsn : p.meta.start_nonce + scoop * p.meta.nonces + p.meta.nonces < U64) :
    ∀ i r, (roundReplies p scoop caps)[i]? = some r →
      r.start_nonce
        = p.meta.start_nonce + scoop * p.meta.nonces
          + sumBytes ((roundReplies p scoop caps).take i) / 64 := by
  intro i r hr
  have h1 := sumBytes_take_le (roundReplies p scoop caps) i
  have h2 := roundReplies_le p scoop caps hreg hcaps
  have hS : SCOOP_SIZE = 64 := rfl
  rw [hS] at h2
  rw [roundReplies_sn p scoop caps hreg hcaps i r hr]
  exact wrap_of_lt (by omega)

lemma roundReplies_notfin (p : Plot) (scoop : Nat) (caps : List Nat) :
    ∀ i r r', (roundReplies p scoop caps)[i]? = some r →
      (roundReplies p scoop caps)[i + 1]? = some r' →
      r.finished = false ∧ ∀ cap, caps[i]? = some cap → r.bytes_read = cap :=
  fun i r r' hr hr' => runReads_notfin scoop caps (p.prepare scoop).1 i r r' hr hr'

lemma roundReplies_fin_iff (p : Plot) (scoop : Nat) (caps : List Nat)
    (hreg : SCOOP_SIZE * p.meta.nonces < U64)
    (hcaps : ∀ c ∈ caps, SCOOP_SIZE * p.meta.nonces + c < U64) :
    ∀ i r cap, (roundReplies p scoop caps)[i]? = some r → caps[i]? = some cap →
      (r.finished = true ↔
        SCOOP_SIZE * p.meta.nonces - sumBytes ((roundReplies p scoop caps).take i)
          ≤ cap) := by
  intro i r cap hr hcap
  have hm := prepare_meta p scoop
  have h0 := prepare_off p scoop
  have h := runReads_fin_iff scoop caps (p.prepare scoop).1
    (by rw [hm]; exact hreg) (by rw [h0]; omega)
    (by intro c hc; rw [hm]; exact hcaps c hc) i r cap hr hcap
  rw [hm, h0] at h
  simpa using h

lemma roundReplies_tail (p : Plot) (scoop : Nat) (caps : List Nat)
    (hreg : SCOOP_SIZE * p.meta.nonces < U64)
    (hcaps : ∀ c ∈ caps, SCOOP_SIZE * p.meta.nonces + c < U64)
    (hlast : lastFinished (roundReplies p scoop caps) = true) :
    ∃ t, sumBytes (roundReplies p scoop caps) + t = SCOOP_SIZE * p.meta.nonces ∧
      (p.use_direct_io = false → t = 0) ∧
      (p.use_direct_io = true → 0 < p.sector_size → t < p.sector_size) := by
  have hm := prepare_meta p scoop
  have h0 := prepare_off p scoop
  have hu := prepare_udio p scoop
  have hs := prepare_sector p scoop
  obtain ⟨t, ht1, ht2, ht3⟩ := runReads_tail scoop caps (p.prepare scoop).1
    (by rw [hm]; exact hreg) (by rw [h0]; omega)
    (by intro c hc; rw [hm]; exact hcaps c hc) hlast
  rw [hm, h0] at ht1
  rw [hu] at ht2 ht3
  rw [hs] at ht3
  exact ⟨t, by simpa using ht1, ht2, ht3⟩

/-- With every capacity a multiple of 64, all bytes emitted before any reply
boundary are a multiple of 64. -/
lemma roundReplies_take_dvd (p : Plot) (scoop : Nat) (caps : List Nat)
    (hmul : ∀ c ∈ caps, 64 ∣ c) :
    ∀ i, i < (roundReplies p scoop caps).length →
      64 ∣ sumBytes ((roundReplies p scoop caps).take i) := by
  intro i
  induction i with
  | zero => intro _; simp
  | succ j ihj =>
    intro h
    have hj : j < (roundReplies p scoop caps).length := by omega
    have hr : (roundReplies p scoop caps)[j]?
        = some ((roundReplies p scoop caps).get ⟨j, hj⟩) := by
      rw [List.getElem?_eq_getElem hj]
      simp [List.get_eq_getElem]
    have hr' : (roundReplies p scoop caps)[j + 1]?
        = some ((roundReplies p scoop caps).get ⟨j + 1, h⟩) := by
      rw [List.getElem?_eq_getElem h]
      simp [List.get_eq_getElem]
    have hjc : j < caps.length := lt_of_lt_of_le hj (roundReplies_len p scoop caps)
    have hcap : caps[j]? = some (caps.get ⟨j, hjc⟩) := by
      rw [List.getElem?_eq_getElem hjc]
      simp [List.get_eq_getElem]
    obtain ⟨_, hb⟩ := roundReplies_notfin p scoop caps j _ _ hr hr'
    rw [sumBytes_take_succ (roundReplies p scoop caps) j hj, hb _ hcap]
    exact Nat.dvd_add (ihj hj) (hmul _ (List.get_mem caps j hjc))

/-! ### Flags of one drive round -/

/-- When a drive's last plot completes its loop, the task's flags are all
`false` except one final `true`. -/
lemma driveFlagsFrom_split (n k : Nat) : ∀ (rest : List (Option Nat)) (i : Nat),
    i + rest.length = n → rest.getLast? = some (some k) →
    ∃ F, driveFlagsFrom n i rest = F ++ [true] ∧ F.count true = 0 := by
  intro rest
  induction rest with
  | nil => intro i _ hlast; simp at hlast
  | cons o rest' ih =>
    intro i hn hlast
    cases rest' with
    | nil =>
      have ho : o = some k := by
        simpa using hlast
      subst ho
      have hi : i = n - 1 := by
        simp at hn
        omega
      have hd : decide (i = n - 1) = true := decide_eq_true hi
      refine ⟨List.replicate k false, ?_, ?_⟩
      · simp [driveFlagsFrom, plotFlags, hd]
      · simp [List.count_eq_zero, List.mem_replicate]
    | cons o2 rest'' =>
      have hlast' : (o2 :: rest'').getLast? = some (some k) := by
        rwa [List.getLast?_cons_cons] at hlast
      have hn' : (i + 1) + (o2 :: rest'').length = n := by
        simp at hn ⊢
        omega
      obtain ⟨F, hF, hcount⟩ := ih (i + 1) hn' hlast'
      have hd : decide (i = n - 1) = false := by
        apply decide_eq_false
        intro hcontra
        simp at hn
        omega
      refine ⟨plotFlags false o ++ F, ?_, ?_⟩
      · show plotFlags (decide (i = n - 1)) o ++ driveFlagsFrom n (i + 1) (o2 :: rest'')
          = plotFlags false o ++ F ++ [true]
        rw [hd, hF, List.append_assoc]
      · rw [List.count_append, hcount]
        cases o <;> simp [plotFlags, List.count_eq_zero, List.mem_replicate]

/-! ### Facts about `plotNew` -/

/-- Decomposition of a successful `Plot::new`. -/
lemma plotNew_some (path : PathInfo) (udio dummy : Bool) (sector : Nat) (p : Plot)
    (hp : plotNew path udio dummy sector = some p) :
    path.isFile = true ∧
    parse3 (splitOn '_' path.fileName)
      = some (p.meta.account_id, p.meta.start_nonce, p.meta.nonces) ∧
    path.size = (p.meta.nonces * NONCE_SIZE) % U64 ∧
    p.meta.name = path.fileName ∧
    p.read_offset = 0 ∧ p.align_offset = 0 ∧ p.seek_base = 0 ∧
    p.sector_size = sector ∧
    p.use_direct_io
      = (if udio = true ∧ p.meta.nonces < sector / 64 then false else udio) := by
  cases hf : path.isFile with
  | false => simp [plotNew, hf] at hp
  | true =>
    rcases hp3 : parse3 (splitOn '_' path.fileName) with _ | ⟨a, s, n⟩
    · simp [plotNew, hf, hp3] at hp
    · by_cases hsz : path.size = (n * NONCE_SIZE) % U64
      · simp only [plotNew, hf, hp3] at hp
        rw [if_neg (by simp)] at hp
        rw [if_neg (not_not_intro hsz)] at hp
        injection hp with hp
        rw [← hp]
        exact ⟨rfl, rfl, hsz, rfl, rfl, rfl, rfl, rfl, rfl⟩
      · simp only [plotNew, hf, hp3] at hp
        rw [if_neg (by simp)] at hp
        rw [if_pos hsz] at hp
        cases hp

/-- A path that passes all of `Plot::new`'s checks yields a plot. -/
lemma plotNew_isSome (path : PathInfo) (udio dummy : Bool) (sector : Nat)
    (a s n : Nat)
    (hf : path.isFile = true)
    (h3 : parse3 (splitOn '_' path.fileName) = some (a, s, n))
    (hsz : path.size = (n * NONCE_SIZE) % U64) :
    (plotNew path udio dummy sector).isSome = true := by
  simp only [plotNew, hf, h3]
  rw [if_neg (by simp)]
  rw [if_neg (not_not_intro hsz)]
  rfl

lemma sumBytes_take_succ_of_getElem (rs : List ReadResult) (i : Nat) (r : ReadResult)
    (h : rs[i]? = some r) :
    sumBytes (rs.take (i + 1)) = sumBytes (rs.take i) + r.bytes_read := by
  rcases List.getElem?_eq_some.1 h with ⟨hlen, hval⟩
  rw [sumBytes_take_succ rs i hlen]
  congr 1
  rw [List.get_eq_getElem]
  exact congrArg (fun x => x.bytes_read) hval

/-! ### The claims -/

/-- C1: for every plot, scoop `s` and every call to `read` after
`prepare(s)`, the returned `start_nonce` equals
`meta.start_nonce + s * meta.nonces + read_offset / 64`, where `read_offset`
is the number of bytes already read from the scoop region this round before
the call (the sum of the earlier replies' bytes); in particular the first
reply's `start_nonce` equals `meta.start_nonce + s * meta.nonces`, not
shifted by `align_offset` even when direct I/O forced a nonzero downward
alignment (the formula does not mention `align_offset` at all). -/
theorem c1_read_start_nonce (p : Plot) (scoop : Nat) (caps : List Nat)
    (hreg : SCOOP_SIZE * p.meta.nonces < U64)
    (hcaps : ∀ c ∈ caps, SCOOP_SIZE * p.meta.nonces + c < U64)
    (hsn : p.meta.start_nonce + scoop * p.meta.nonces + p.meta.nonces < U64) :
    (∀ i r, (roundReplies p scoop caps)[i]? = some r →
      r.start_nonce
        = p.meta.start_nonce + scoop * p.meta.nonces
          + sumBytes ((roundReplies p scoop caps).take i) / 64) ∧
    (∀ r, (roundReplies p scoop caps)[0]? = some r →
      r.start_nonce = p.meta.start_nonce + scoop * p.meta.nonces) := by
  refine ⟨roundReplies_sn_nowrap p scoop caps hreg hcaps hsn, ?_⟩
  intro r hr
  simpa using roundReplies_sn_nowrap p scoop caps hreg hcaps hsn 0 r hr

/-- Witness for C1 at scenario S3: the 63-nonce direct-I/O plot with sector
size 512 at scoop 1 (so `align_offset = 448`) still reports `start_nonce`
`0 + 1 * 63 = 63` in its first reply. -/
theorem c1_read_start_nonce_witness :
    ({ bytes_read := 1024, start_nonce := 63, finished := false } : ReadResult).start_nonce
      = pS3.meta.start_nonce + 1 * pS3.meta.nonces :=
  (c1_read_start_nonce pS3 1 [1024] (by decide) (by decide) (by decide)).2
    { bytes_read := 1024, start_nonce := 63, finished := false } (by decide)

/-- C2: `prepare(s)` resets `read_offset` (and, in buffered mode,
`align_offset`) to zero; in buffered mode `seek_base` and the seek target are
the raw address `s * nonces * SCOOP_SIZE`; under direct I/O `align_offset`
is that address modulo `sector_size` and `seek_base` is the address aligned
downward by it — a multiple of `sector_size`, never larger than the raw
address — and the handle seeks to `seek_base`. -/
theorem c2_prepare_alignment (p : Plot) (scoop : Nat)
    (hnw : scoop * p.meta.nonces * SCOOP_SIZE < U64)
    (_hsec : 0 < p.sector_size) :
    (p.prepare scoop).1.read_offset = 0 ∧
    (p.use_direct_io = false →
      (p.prepare scoop).1.align_offset = 0 ∧
      (p.prepare scoop).1.seek_base = scoop * p.meta.nonces * SCOOP_SIZE ∧
      (p.prepare scoop).2 = scoop * p.meta.nonces * SCOOP_SIZE) ∧
    (p.use_direct_io = true →
      (p.prepare scoop).1.align_offset
        = (scoop * p.meta.nonces * SCOOP_SIZE) % p.sector_size ∧
      (p.prepare scoop).1.seek_base
        = scoop * p.meta.nonces * SCOOP_SIZE - (p.prepare scoop).1.align_offset ∧
      p.sector_size ∣ (p.prepare scoop).1.seek_base ∧
      (p.prepare scoop).1.seek_base ≤ scoop * p.meta.nonces * SCOOP_SIZE ∧
      (p.prepare scoop).2 = (p.prepare scoop).1.seek_base) := by
  have ha : (scoop * p.meta.nonces * SCOOP_SIZE) % U64
      = scoop * p.meta.nonces * SCOOP_SIZE := wrap_of_lt hnw
  refine ⟨prepare_off p scoop, ?_, ?_⟩
  · intro h
    obtain ⟨h1, h2, h3⟩ := prepare_buffered p scoop h
    rw [ha] at h2 h3
    exact ⟨h1, h2, h3⟩
  · intro h
    obtain ⟨h1, h2, h3⟩ := prepare_direct p scoop h
    rw [ha] at h1 h2
    refine ⟨h1, ?_, ?_, ?_, h3⟩
    · rw [h1]
      exact h2
    · rw [h2]
      have hdm := Nat.div_add_mod (scoop * p.meta.nonces * SCOOP_SIZE) p.sector_size
      exact ⟨scoop * p.meta.nonces * SCOOP_SIZE / p.sector_size, by omega⟩
    · rw [h2]
      omega

/-- Witness for C2 at scenario S3: scoop 1, 63 nonces, sector 512:
`align_offset = 4032 % 512 = 448` and `seek_base = 3584`. -/
theorem c2_prepare_alignment_witness :
    (pS3.prepare 1).1.align_offset = 448 ∧ (pS3.prepare 1).1.seek_base = 3584 := by
  have h := (c2_prepare_alignment pS3 1 (by decide) (by decide)).2.2 rfl
  constructor
  · rw [h.1]
    decide
  · rw [h.2.1, h.1]
    decide

/-- C3: a scoop region read to completion in a round emits
`nonces * SCOOP_SIZE - t` bytes in total, where `t = 0` in buffered mode and
`t < sector_size` under direct I/O (with a positive sector size); and each
read call reports `finished = true` exactly when its buffer's capacity is at
least the bytes then remaining in the region. -/
theorem c3_round_total_bytes (p : Plot) (scoop : Nat) (caps : List Nat)
    (hreg : SCOOP_SIZE * p.meta.nonces < U64)
    (hcaps : ∀ c ∈ caps, SCOOP_SIZE * p.meta.nonces + c < U64)
    (hfin : lastFinished (roundReplies p scoop caps) = true) :
    (∃ t, sumBytes (roundReplies p scoop caps) + t = SCOOP_SIZE * p.meta.nonces ∧
       (p.use_direct_io = true → 0 < p.sector_size → t < p.sector_size) ∧
       (p.use_direct_io = false → t = 0)) ∧
    (∀ i r cap, (roundReplies p scoop caps)[i]? = some r → caps[i]? = some cap →
       (r.finished = true ↔
         SCOOP_SIZE * p.meta.nonces - sumBytes ((roundReplies p scoop caps).take i)
           ≤ cap)) := by
  refine ⟨?_, roundReplies_fin_iff p scoop caps hreg hcaps⟩
  obtain ⟨t, h1, h2, h3⟩ := roundReplies_tail p scoop caps hreg hcaps hfin
  exact ⟨t, h1, h3, h2⟩

/-- Witness for C3: the direct-I/O plot `pS3` read with one 8192-byte buffer
completes in one read; the tail dropped is `4032 % 512 = 448 < 512`. -/
theorem c3_round_total_bytes_witness :
    ∃ t, sumBytes (roundReplies pS3 1 [8192]) + t = SCOOP_SIZE * pS3.meta.nonces ∧
      (pS3.use_direct_io = true → 0 < pS3.sector_size → t < pS3.sector_size) ∧
      (pS3.use_direct_io = false → t = 0) :=
  (c3_round_total_bytes pS3 1 [8192] (by decide) (by decide) (by decide)).1

/-- C4 counterexample: with 128-byte buffers on a 4-nonce buffered plot,
the emitted `start_nonce` values are `{0, 2}`, while
`{start_nonce + 0 * nonces + k : k ∈ [0, emitted_bytes / 64)}` is
`{0, 1, 2, 3}` — `1` is in the claimed set but never emitted, so the two
sets differ (each reply's `start_nonce` names only the first nonce of its
buffer, not every nonce it covers). -/
theorem c4_start_nonce_set_cex :
    ((roundReplies p4 0 [128, 128]).map fun r => r.start_nonce) = [0, 2] ∧
    sumBytes (roundReplies p4 0 [128, 128]) = 256 ∧
    1 < sumBytes (roundReplies p4 0 [128, 128]) / 64 ∧
    ¬ 1 ∈ ((roundReplies p4 0 [128, 128]).map fun r => r.start_nonce) := by
  decide

/-- C4 as amended: the replies tile the nonce range with no gaps and no
overlaps at buffer granularity: the first reply starts at
`start_nonce + scoop * nonces`, and when every buffer capacity is a multiple
of 64, each subsequent reply starts exactly `bytes_read / 64` nonces after
the reply before it. -/
theorem c4_start_nonce_chain (p : Plot) (scoop : Nat) (caps : List Nat)
    (hreg : SCOOP_SIZE * p.meta.nonces < U64)
    (hcaps : ∀ c ∈ caps, SCOOP_SIZE * p.meta.nonces + c < U64)
    (hsn : p.meta.start_nonce + scoop * p.meta.nonces + p.meta.nonces < U64)
    (hmul : ∀ c ∈ caps, 64 ∣ c) :
    (∀ r, (roundReplies p scoop caps)[0]? = some r →
       r.start_nonce = p.meta.start_nonce + scoop * p.meta.nonces) ∧
    (∀ i r r', (roundReplies p scoop caps)[i]? = some r →
       (roundReplies p scoop caps)[i + 1]? = some r' →
       r'.start_nonce = r.start_nonce + r.bytes_read / 64) := by
  constructor
  · intro r hr
    simpa using roundReplies_sn_nowrap p scoop caps hreg hcaps hsn 0 r hr
  · intro i r r' hr hr'
    have h1 := roundReplies_sn_nowrap p scoop caps hreg hcaps hsn i r hr
    have h2 := roundReplies_sn_nowrap p scoop caps hreg hcaps hsn (i + 1) r' hr'
    have hiLen : i < (roundReplies p scoop caps).length :=
      (List.getElem?_eq_some.1 hr).1
    obtain ⟨m, hm⟩ := roundReplies_take_dvd p scoop caps hmul i hiLen
    rw [sumBytes_take_succ_of_getElem _ i r hr, hm] at h2
    rw [hm] at h1
    have e1 : 64 * m / 64 = m := by omega
    have e2 : (64 * m + r.bytes_read) / 64 = m + r.bytes_read / 64 :=
      Nat.mul_add_div (by norm_num) m r.bytes_read
    rw [e2] at h2
    rw [e1] at h1
    omega

/-- Witness for C4's amended chain on the 4-nonce plot with 128-byte
buffers: the second reply starts `128 / 64 = 2` nonces after the first. -/
theorem c4_start_nonce_chain_witness :
    ({ bytes_read := 128, start_nonce := 2, finished := true } : ReadResult).start_nonce
      = ({ bytes_read := 128, start_nonce := 0, finished := false } : ReadResult).start_nonce
        + ({ bytes_read := 128, start_nonce := 0, finished := false } : ReadResult).bytes_read
          / 64 :=
  (c4_start_nonce_chain p4 0 [128, 128] (by decide) (by decide) (by decide) (by decide)).2
    0 { bytes_read := 128, start_nonce := 0, finished := false }
    { bytes_read := 128, start_nonce := 2, finished := true } (by decide) (by decide)

/-- C5 counterexample: a drive whose first plot completes in one reply and
whose LAST plot fails `prepare` runs its round to completion without
interrupt but emits NO reply with `finished = true` at all (the first plot's
reply has `i_p == plot_count - 1` false, and the failed last plot emits
nothing), so "exactly one `finished = true` reply per drive per round,
including when prepare fails for the last plot" is false on the code. -/
theorem c5_finished_flag_cex :
    driveFlags [some 0, none] = [false] ∧
    (driveFlags [some 0, none]).count true = 0 := by
  decide

/-- C5 as amended: provided the drive's LAST plot's `prepare` succeeds (its
read loop then ends with `next_plot = true`, a read error included), exactly
one reply carries `finished = true` and it is the last reply of the round;
when `prepare` fails for the last plot, no `finished = true` reply is
emitted that round. -/
theorem c5_finished_flag_amended (outcomes : List (Option Nat)) (k : Nat)
    (h : outcomes.getLast? = some (some k)) :
    (driveFlags outcomes).count true = 1 ∧
    (driveFlags outcomes).getLast? = some true := by
  obtain ⟨F, hF, hcount⟩ := driveFlagsFrom_split outcomes.length k outcomes 0
    (by simp) h
  simp only [driveFlags]
  rw [hF]
  constructor
  · rw [List.count_append, hcount]
    simp
  · exact List.getLast?_concat F

/-- Witness for C5's amended statement: first plot's prepare fails, second
(last) plot emits three replies; exactly one `finished = true`, last. -/
theorem c5_finished_flag_witness :
    (driveFlags [none, some 2]).count true = 1 ∧
    (driveFlags [none, some 2]).getLast? = some true :=
  c5_finished_flag_amended [none, some 2] 2 (by decide)

/-- C6 counterexample: when the CPU reply channel's send fails
(`ChannelClosed`: the consumer vanished), the buffer travels inside the
failed `send`'s returned error value and is dropped as the task logs and
breaks — it is neither sent onward nor returned to `empty_buffers`, so
"never dropped, for every execution" is false on the code. -/
theorem c6_buffer_fate_cex :
    readerIteration (some (0, 0, false)) false false true
      = (BufferFate.dropped, TaskStep.exitTask) := by
  decide

/-- C6 as amended: provided the channel sends succeed, every buffer taken
from `empty_buffers` is either sent inside a `ReadReply` or returned to
`empty_buffers`, never dropped; and whenever the task observes an interrupt
after a buffer fill it returns the in-hand buffer to `empty_buffers` and
exits the round without processing further plots. -/
theorem c6_buffer_fate_amended (readRes : Option (Nat × Nat × Bool)) (interrupted : Bool) :
    ((readerIteration readRes interrupted true true).1 = BufferFate.sentReply ∨
     (readerIteration readRes interrupted true true).1 = BufferFate.returnedToPool) ∧
    readerIteration readRes true true true
      = (BufferFate.returnedToPool, TaskStep.exitTask) := by
  constructor
  · rcases readRes with _ | ⟨a, b, np⟩ <;> cases interrupted <;>
      simp [readerIteration]
  · rcases readRes with _ | ⟨a, b, np⟩ <;> simp [readerIteration]

/-- C7 counterexample: the file named `1_0_70368744177665` with size
`262144` bytes is ACCEPTED by `Plot::new` although its length does not equal
the mathematical product `nonces * NONCE_SIZE` (which exceeds `2^64`): the
expected size is computed in wrapping `u64` arithmetic, so the stated
"succeeds iff ... length equals nonces * NONCE_SIZE" fails. -/
theorem c7_plot_new_cex :
    (plotNew { isFile := true, fileName := ("1_0_70368744177665").data, size := 262144 }
        false false 4096).isSome = true ∧
    ¬ (262144 : Nat) = 70368744177665 * NONCE_SIZE := by
  decide

/-- C7 as amended: `Plot::new` succeeds iff the path is a regular file whose
name splits into exactly three underscore-delimited fields each accepted by
Rust's `u64` parser and whose on-disk length equals `nonces * NONCE_SIZE`
computed in `u64` arithmetic (i.e. reduced modulo `2^64`); on success the
`Meta` fields are exactly the three parsed values, in order. -/
theorem c7_plot_new_amended (path : PathInfo) (udio dummy : Bool) (sector : Nat) :
    ((plotNew path udio dummy sector).isSome = true ↔
      path.isFile = true ∧
      ∃ a s n, parse3 (splitOn '_' path.fileName) = some (a, s, n) ∧
        path.size = (n * NONCE_SIZE) % U64) ∧
    (∀ p, plotNew path udio dummy sector = some p →
      parse3 (splitOn '_' path.fileName)
        = some (p.meta.account_id, p.meta.start_nonce, p.meta.nonces) ∧
      path.size = (p.meta.nonces * NONCE_SIZE) % U64 ∧
      p.meta.name = path.fileName) := by
  constructor
  · constructor
    · intro hsome
      rw [Option.isSome_iff_exists] at hsome
      obtain ⟨p, hp⟩ := hsome
      obtain ⟨hf, h3, hsz, _⟩ := plotNew_some path udio dummy sector p hp
      exact ⟨hf, p.meta.account_id, p.meta.start_nonce, p.meta.nonces, h3, hsz⟩
    · rintro ⟨hf, a, s, n, h3, hsz⟩
      exact plotNew_isSome path udio dummy sector a s n hf h3 hsz
  · intro p hp
    obtain ⟨_, h3, hsz, hname, _⟩ := plotNew_some path udio dummy sector p hp
    exact ⟨h3, hsz, hname⟩

/-- C8: a plot constructed with `use_direct_io = true` whose nonce count is
below `sector_size / 64` still constructs, but with `use_direct_io`
silently downgraded to `false`; every completed round then emits the full
`nonces * SCOOP_SIZE` bytes (zero tail), as in buffered mode. -/
theorem c8_direct_io_downgrade (path : PathInfo) (dummy : Bool) (sector : Nat) (p : Plot)
    (hp : plotNew path true dummy sector = some p)
    (hsmall : p.meta.nonces < sector / 64) :
    p.use_direct_io = false ∧
    ∀ (scoop : Nat) (caps : List Nat),
      SCOOP_SIZE * p.meta.nonces < U64 →
      (∀ c ∈ caps, SCOOP_SIZE * p.meta.nonces + c < U64) →
      lastFinished (roundReplies p scoop caps) = true →
      sumBytes (roundReplies p scoop caps) = SCOOP_SIZE * p.meta.nonces := by
  obtain ⟨_, _, _, _, _, _, _, _, hud⟩ := plotNew_some path true dummy sector p hp
  rw [if_pos ⟨rfl, hsmall⟩] at hud
  refine ⟨hud, ?_⟩
  intro scoop caps hreg hcaps hlast
  obtain ⟨t, h1, h2, _⟩ := roundReplies_tail p scoop caps hreg hcaps hlast
  have ht := h2 hud
  omega

/-- Witness for C8 at scenario S2: plot `7_0_3` (3 nonces) opened with
direct I/O requested and sector size 4096 (`4096 / 64 = 64 > 3`): the
downgrade occurs and the full `192` bytes are emitted. -/
theorem c8_direct_io_downgrade_witness :
    pS2.use_direct_io = false ∧
    sumBytes (roundReplies pS2 1 [8192]) = SCOOP_SIZE * pS2.meta.nonces := by
  have h := c8_direct_io_downgrade pathS2 false 4096 pS2 (by decide) (by decide)
  exact ⟨h.1, h.2 1 [8192] (by decide) (by decide) (by decide)⟩

/-- C9 counterexample: the plot `123_0_10` (2,621,440 bytes) read with
buffered I/O at scoop 0 through 640-byte buffers produces exactly ONE
`ReadReply`, not 1024: its scoop region is `10 * 64 = 640` bytes, which one
640-byte buffer covers in a single read. -/
theorem c9_small_plot_cex :
    (roundReplies P9 0 (List.replicate 1024 640)).length = 1 ∧
    (1 : Nat) ≠ 1024 := by
  decide

/-- C9 as amended: `Plot::new` accepts `123_0_10` at size 2,621,440, and the
round at scoop 0 with 640-byte buffers produces exactly one reply, with
`start_nonce = 0`, `len = 640` and `finished = true`. -/
theorem c9_small_plot_amended :
    plotNew path9 false false 4096 = some P9 ∧
    roundReplies P9 0 (List.replicate 1024 640)
      = [{ bytes_read := 640, start_nonce := 0, finished := true }] := by
  decide

/-- C10: the expected file size is the `u64` product `nonces * NONCE_SIZE`,
which wraps modulo `2^64`: for the filename `2_0_70368744177666` (third
field above `2^64 / NONCE_SIZE`) the wrapped product is `524288`, and a file
of exactly that length is accepted although the true mathematical product is
different. -/
theorem c10_size_check_wraps :
    (plotNew { isFile := true, fileName := ("2_0_70368744177666").data, size := 524288 }
        false false 4096).isSome = true ∧
    70368744177666 * NONCE_SIZE % U64 = 524288 ∧
    ¬ 70368744177666 * NONCE_SIZE = 524288 ∧
    2 ^ 64 / NONCE_SIZE < 70368744177666 := by
  decide

end SignumMiner
